import Mathlib

/-!
# Recovery tool: address scanning, client pool and fee prompt

A shallow embedding of `scanner/task.go`, `electrum/pool.go` and `readFee` of
`main.go`, followed by the properties proved about them.

Conventions of the embedding

* Go `error` values are the inductive `GoError`; a nil error is `none`.
* A Go slice that the code may leave nil is a `Slice`: `none` is the nil slice.
* Pointers held by a struct (`*ServerProvider`, `*electrum.Client`) become the
  current value of the pointed-to object, passed and returned explicitly.
* A goroutine that sends on a channel and the `select` that receives are a
  schedule: the list of the events the `select` of `Execute` observes.
* `int64` values are `Int`, every arithmetic result reduced by `wrap64`.
-/

namespace Recovery

/-! ## Go values -/

/-- A Go error value: one made by `errors.New` (a message only) or one made by
`fmt.Errorf` with a `%w` operand (a message and the wrapped error). -/
inductive GoError where
  | leaf (msg : String)
  | wrap (msg : String) (inner : GoError)
  deriving DecidableEq, Repr

/-- The method `Error()`: the message of the error. -/
def GoError.Error : GoError → String
  | .leaf msg => msg
  | .wrap msg _ => msg

/-- The function `errors.Unwrap`: the wrapped error, nil for an error that wraps none. -/
def GoError.Unwrap : GoError → Option GoError
  | .leaf _ => none
  | .wrap _ inner => some inner

/-- The call `fmt.Errorf(pre + "%w", err)`. With an error operand the result wraps it and
its message is `pre` followed by the operand's message. With a nil operand the verb is
a bad verb: the text `%!w(<nil>)` is printed and the result wraps nothing. -/
def Errorf (pre : String) (err : Option GoError) : GoError :=
  match err with
  | some e => .wrap (pre ++ e.Error) e
  | none => .leaf (pre ++ "%!w(<nil>)")

/-- A Go slice value: `none` is the nil slice. -/
abbrev Slice (α : Type) := Option (List α)

/-- The elements of a slice, what `range` goes through. -/
def sliceElems {α : Type} (s : Slice α) : List α := s.getD []

/-- The built-in `append(s, x)`. -/
def sliceAppend {α : Type} (s : Slice α) (x : α) : Slice α := some (sliceElems s ++ [x])

/-- What a function returning `(value, error)` can do: return a value with a nil error,
return an error, or stop the program with an index-out-of-range run-time error. -/
inductive Outcome (α : Type) where
  | ok (a : α)
  | error (e : GoError)
  | outOfRange
  deriving DecidableEq, Repr

/-! ## Data of the scanner -/

/-- Bytes of an output script. -/
abbrev Script := List Nat

/-- The interface `libwallet.MuunAddress`. -/
structure MuunAddress where
  Version : Int
  DerivationPath : String
  Address : String
  deriving DecidableEq, Repr

/-- The record `electrum.UnspentRef`, with the fields `tryExecute` reads. -/
structure UnspentRef where
  TxHash : String
  TxPos : Int
  Value : Int
  deriving DecidableEq, Repr

/-- The record `Utxo`, with the fields `tryExecute` fills. -/
structure Utxo where
  TxID : String
  OutputIndex : Int
  Amount : Int
  Script : Script
  Address : MuunAddress
  deriving DecidableEq, Repr

/-- The library functions `getOutputScripts` and `getIndexHashes` call, taken as
parameters: `btcutil.DecodeAddress` (on main-net), `txscript.PayToAddrScript` and
`electrum.GetIndexHash`. `α` is the type of a decoded address. -/
structure Env (α : Type) where
  DecodeAddress : String → Except GoError α
  PayToAddrScript : α → Except GoError Script
  GetIndexHash : Script → String

/-- The methods of its two collaborators that the scan task calls, taken as
parameters: `NextServer` of `ServerProvider`, over the provider's state `π`, and the
methods of `electrum.Client`, over the client's state `σ`. A call that may change the
state of its object returns the new state. -/
structure TaskOps (π σ : Type) where
  NextServer : π → String × π
  IsConnected : σ → Bool
  Connect : σ → String → Option GoError × σ
  Disconnect : σ → σ
  SupportsBatching : σ → Bool
  ListUnspent : σ → String → Except GoError (List UnspentRef) × σ
  ListUnspentBatch : σ → List String → Except GoError (List (List UnspentRef)) × σ

/-- The struct `scanTask`. `servers` and `client` hold the current value of the object
behind the pointer. The fields `timeout` and `exit` are the timer and the channel whose
firing is an `Event` of the schedule given to `Execute`. -/
structure scanTask (π σ : Type) where
  servers : π
  client : σ
  addresses : List MuunAddress
  deriving DecidableEq, Repr

/-! ## `scanner/task.go` -/

/-- The function `getOutputScripts`: the script of every address, in order; the first
address that fails to decode or to give a script ends the loop with a wrapped error. -/
def getOutputScripts {α : Type} (env : Env α) : List MuunAddress → Except GoError (List Script)
  | [] => .ok []
  | address :: rest =>
    let rawAddress := address.Address
    match env.DecodeAddress rawAddress with
    | .error err => .error (Errorf ("Failed to decode address " ++ rawAddress ++ ": ") (some err))
    | .ok decodedAddress =>
      match env.PayToAddrScript decodedAddress with
      | .error err => .error (Errorf ("Failed to craft script for " ++ rawAddress ++ ": ") (some err))
      | .ok outputScript =>
        match getOutputScripts env rest with
        | .error err => .error err
        | .ok outputScripts => .ok (outputScript :: outputScripts)

/-- The function `getIndexHashes`: the index hash of every script; its error is always nil. -/
def getIndexHashes {α : Type} (env : Env α) (outputScripts : List Script) :
    Except GoError (List String) :=
  .ok (outputScripts.map env.GetIndexHash)

/-- The method `listUnspentWithBatching`: one batched call, its groups returned as they
come; an error of the call is wrapped. -/
def listUnspentWithBatching {π σ : Type} (ops : TaskOps π σ) (client : σ)
    (indexHashes : List String) : Except GoError (List (List UnspentRef)) × σ :=
  match ops.ListUnspentBatch client indexHashes with
  | (.error err, client1) => (.error (Errorf "Listing with batching failed: " (some err)), client1)
  | (.ok unspentRefGroups, client1) => (.ok unspentRefGroups, client1)

/-- The loop of `listUnspentWithoutBatching`, with the groups gathered so far. -/
def listUnspentLoop {π σ : Type} (ops : TaskOps π σ) :
    σ → List String → List (List UnspentRef) → Except GoError (List (List UnspentRef)) × σ
  | client, [], unspentRefGroups => (.ok unspentRefGroups, client)
  | client, indexHash :: rest, unspentRefGroups =>
    match ops.ListUnspent client indexHash with
    | (.error err, client1) =>
      (.error (Errorf "Listing without batching failed: " (some err)), client1)
    | (.ok newGroup, client1) => listUnspentLoop ops client1 rest (unspentRefGroups ++ [newGroup])

/-- The method `listUnspentWithoutBatching`: one call per index hash, in order. -/
def listUnspentWithoutBatching {π σ : Type} (ops : TaskOps π σ) (client : σ)
    (indexHashes : List String) : Except GoError (List (List UnspentRef)) × σ :=
  listUnspentLoop ops client indexHashes []

/-- The inner loop of `tryExecute` (lines 108-118): one `Utxo` per reference of group
`i`; `outputScripts[i]` and `t.addresses[i]` are read for every reference, and reading
outside either list stops the program. -/
def compileGroup (outputScripts : List Script) (addresses : List MuunAddress) (i : Nat) :
    List UnspentRef → Slice Utxo → Outcome (Slice Utxo)
  | [], utxos => .ok utxos
  | unspentRef :: rest, utxos =>
    match outputScripts[i]?, addresses[i]? with
    | some script, some address =>
      compileGroup outputScripts addresses i rest
        (sliceAppend utxos
          { TxID := unspentRef.TxHash, OutputIndex := unspentRef.TxPos,
            Amount := unspentRef.Value, Script := script, Address := address })
    | _, _ => .outOfRange

/-- The outer loop of `tryExecute` (lines 107-119), from group index `i` on. -/
def compileUtxos (outputScripts : List Script) (addresses : List MuunAddress) :
    Nat → List (List UnspentRef) → Slice Utxo → Outcome (Slice Utxo)
  | _, [], utxos => .ok utxos
  | i, unspentRefGroup :: rest, utxos =>
    match compileGroup outputScripts addresses i unspentRefGroup utxos with
    | .ok utxos1 => compileUtxos outputScripts addresses (i + 1) rest utxos1
    | .error e => .error e
    | .outOfRange => .outOfRange

/-- The first block of `tryExecute` (lines 70-77): a client that is not connected asks
the provider for the next server and connects to it. Returns the connect error, if any. -/
def connectIfNeeded {π σ : Type} (ops : TaskOps π σ) (t : scanTask π σ) :
    Option GoError × scanTask π σ :=
  if !ops.IsConnected t.client then
    let next := ops.NextServer t.servers
    let r := ops.Connect t.client next.1
    (r.1, { t with servers := next.2, client := r.2 })
  else
    (none, t)

/-- The listing block of `tryExecute` (lines 91-98): batched when the client supports it. -/
def listUnspentRefGroups {π σ : Type} (ops : TaskOps π σ) (client : σ)
    (indexHashes : List String) : Except GoError (List (List UnspentRef)) × σ :=
  if ops.SupportsBatching client then
    listUnspentWithBatching ops client indexHashes
  else
    listUnspentWithoutBatching ops client indexHashes

/-- The method `tryExecute`: one scan attempt. Returns its outcome and the task with the
provider and the client as the attempt left them. -/
def tryExecute {π σ α : Type} (ops : TaskOps π σ) (env : Env α) (t : scanTask π σ) :
    Outcome (Slice Utxo) × scanTask π σ :=
  match connectIfNeeded ops t with
  | (some err, t1) => (.error err, t1)
  | (none, t1) =>
    match getOutputScripts env t1.addresses with
    | .error err => (.error err, t1)
    | .ok outputScripts =>
      match getIndexHashes env outputScripts with
      | .error err => (.error err, t1)
      | .ok indexHashes =>
        match listUnspentRefGroups ops t1.client indexHashes with
        | (.error err, client2) => (.error err, { t1 with client := client2 })
        | (.ok unspentRefGroups, client2) =>
          (compileUtxos outputScripts t1.addresses 0 unspentRefGroups none,
            { t1 with client := client2 })

/-- What the goroutine of one attempt sends: a result on `results` or an error on `errors`. -/
inductive Sent where
  | result (r : Slice Utxo)
  | err (e : GoError)
  deriving DecidableEq, Repr

/-- The method `tryExecuteAsync`: run the attempt; on an error disconnect the client and
send the error, else send the result. `none` when the attempt stopped the program. -/
def tryExecuteAsync {π σ α : Type} (ops : TaskOps π σ) (env : Env α) (t : scanTask π σ) :
    Option Sent × scanTask π σ :=
  match tryExecute ops env t with
  | (.error err, t1) => (some (.err err), { t1 with client := ops.Disconnect t1.client })
  | (.ok result, t1) => (some (.result result), t1)
  | (.outOfRange, t1) => (none, t1)

/-- The event the `select` of `Execute` observes in one iteration of its loop: the exit
channel, the attempt just launched (its result or its error), or the deadline timer. -/
inductive Event where
  | exit
  | attempt
  | timeout
  deriving DecidableEq, Repr

/-- How `Execute` ends: it returns `(result, err)`, or the program stopped. -/
inductive Verdict where
  | returned (result : Slice Utxo) (err : Option GoError)
  | crashed
  deriving DecidableEq, Repr

/-- The loop of `Execute` with the local `lastError`, over the schedule of observed
events. Each iteration launches one attempt and waits in the `select`; the event tells
which case the `select` takes. `none`: the schedule ended and `Execute` is still waiting.
At an `exit` or a `timeout` the attempt of that iteration is still running and
`Execute` does not wait for it: the task returned is the one the last finished attempt
left. -/
def executeLoop {π σ α : Type} (ops : TaskOps π σ) (env : Env α) :
    scanTask π σ → Option GoError → List Event → Option (Verdict × scanTask π σ)
  | _, _, [] => none
  | t, _, .exit :: _ => some (.returned (some []) none, t)
  | t, lastError, .timeout :: _ =>
    some (.returned none (some (Errorf "Task timed out. Last error: " lastError)), t)
  | t, _, .attempt :: rest =>
    match tryExecuteAsync ops env t with
    | (some (.result result), t1) => some (.returned result none, t1)
    | (some (.err err), t1) => executeLoop ops env t1 (some err) rest
    | (none, t1) => some (.crashed, t1)

/-- The method `Execute`: the loop started with a nil `lastError`. -/
def Execute {π σ α : Type} (ops : TaskOps π σ) (env : Env α) (t : scanTask π σ)
    (schedule : List Event) : Option (Verdict × scanTask π σ) :=
  executeLoop ops env t none schedule

/-! ## `electrum/pool.go` -/

/-- A `*Client`: the identity of a client object. `NewClient()` is not among the
sources; all the pool needs of it is that every call returns a new object, and `addr`
tells the objects apart. -/
structure ClientRef where
  addr : Nat
  deriving DecidableEq, Repr

/-- A buffered Go channel: the values waiting in it, oldest first, and its capacity. -/
structure Chan (α : Type) where
  buf : List α
  cap : Nat
  deriving DecidableEq, Repr

/-- The call `make(chan T, size)`. -/
def Chan.make {α : Type} (size : Nat) : Chan α := { buf := [], cap := size }

/-- A send `ch <- x`: `none` when the buffer is full and the sender has to wait. -/
def Chan.send {α : Type} (ch : Chan α) (x : α) : Option (Chan α) :=
  if ch.buf.length < ch.cap then some { ch with buf := ch.buf ++ [x] } else none

/-- A receive `<-ch`: `none` when the buffer is empty and the receiver has to wait. -/
def Chan.recv {α : Type} (ch : Chan α) : Option (α × Chan α) :=
  match ch.buf with
  | [] => none
  | x :: rest => some (x, { ch with buf := rest })

/-- The struct `Pool`. -/
structure Pool where
  nextClient : Chan ClientRef
  deriving DecidableEq, Repr

/-- The loop of `NewPool` from `i` on: `size - i` sends of a new client, `fuel` bounding
the iterations. None of the sends waits, the channel having room for `size` clients. -/
def newPoolLoop (size : Nat) : Nat → Nat → Chan ClientRef → Chan ClientRef
  | 0, _, nextClient => nextClient
  | fuel + 1, i, nextClient =>
    if i < size then
      match nextClient.send { addr := i } with
      | some nextClient1 => newPoolLoop size fuel (i + 1) nextClient1
      | none => nextClient
    else nextClient

/-- The function `NewPool`: a channel of capacity `size` filled with `size` new clients. -/
def NewPool (size : Nat) : Pool :=
  { nextClient := newPoolLoop size size 0 (Chan.make size) }

/-- The method `Acquire`: the channel itself; the caller receives from it. -/
def Pool.Acquire (p : Pool) : Chan ClientRef := p.nextClient

/-- The method `Release`: a send of the client on the channel. -/
def Pool.Release (p : Pool) (client : ClientRef) : Option Pool :=
  (p.nextClient.send client).map Pool.mk

/-- A pool together with the clients its users hold. -/
structure PoolSys where
  pool : Pool
  held : List ClientRef
  deriving DecidableEq, Repr

/-- A step of a user of the pool: a receive from `Acquire()`, or a `Release`. -/
inductive PoolOp where
  | acquire
  | release (client : ClientRef)
  deriving DecidableEq, Repr

/-- One step. `none` when the step cannot happen now: a receive from an empty channel
or a send to a full one waits, and a user only releases a client it holds. -/
def poolStep (s : PoolSys) : PoolOp → Option PoolSys
  | .acquire =>
    match s.pool.Acquire.recv with
    | none => none
    | some (client, ch) => some { pool := { nextClient := ch }, held := client :: s.held }
  | .release client =>
    if client ∈ s.held then
      match s.pool.Release client with
      | none => none
      | some p => some { pool := p, held := s.held.erase client }
    else none

/-- A sequence of steps, each from the state the one before left. -/
def poolRun : PoolSys → List PoolOp → Option PoolSys
  | s, [] => some s
  | s, op :: rest =>
    match poolStep s op with
    | none => none
    | some s1 => poolRun s1 rest

/-! ## `readFee` of `main.go` -/

/-- An `int64` result: the integer reduced to 64 bits, two's complement. -/
def wrap64 (x : Int) : Int := (x + 2 ^ 63) % 2 ^ 64 - 2 ^ 63

/-- The value of a decimal digit. -/
def digitVal (c : Char) : Option Nat :=
  if '0' ≤ c ∧ c ≤ '9' then some (c.toNat - '0'.toNat) else none

/-- The digits of `strconv.ParseUint` in base 10, `acc` being the value read so far;
`none` on a character that is no digit. -/
def parseDigits : List Char → Nat → Option Nat
  | [], acc => some acc
  | c :: rest, acc =>
    match digitVal c with
    | none => none
    | some d => parseDigits rest (acc * 10 + d)

/-- The call `strconv.ParseInt(s, 10, 64)`: an optional sign and at least one decimal
digit; a value outside of `int64` is a range error. -/
def ParseInt (s : String) : Except GoError Int :=
  let digits (neg : Bool) (cs : List Char) : Except GoError Int :=
    match cs with
    | [] => .error (.leaf "invalid syntax")
    | _ =>
      match parseDigits cs 0 with
      | none => .error (.leaf "invalid syntax")
      | some un =>
        if neg then
          if un > 2 ^ 63 then .error (.leaf "value out of range") else .ok (-(un : Int))
        else
          if un ≥ 2 ^ 63 then .error (.leaf "value out of range") else .ok (un : Int)
  match s.toList with
  | [] => .error (.leaf "invalid syntax")
  | '+' :: cs => digits false cs
  | '-' :: cs => digits true cs
  | cs => digits false cs

/-- The function `readFee`, over the words the user enters one after the other (each
`fmt.Scan` reads the next one). A rejected word prompts again, which is the recursive
call; `none` when the words end before one is accepted. -/
def readFee (totalBalance weight : Int) : List String → Option Int
  | [] => none
  | userInput :: rest =>
    match ParseInt userInput with
    | .error _ => readFee totalBalance weight rest
    | .ok feeInSatsPerByte =>
      if feeInSatsPerByte ≤ 0 then readFee totalBalance weight rest
      else
        let totalFee := wrap64 (feeInSatsPerByte * weight)
        if wrap64 (totalBalance - totalFee) < 546 then readFee totalBalance weight rest
        else some totalFee

/-! ## Helpers to state the properties -/

/-- The first `k` attempts of a task, when all of them fail: their errors, in order, and
the task as the last of them left it. `none` when one of them does not fail. -/
def failedAttempts {π σ α : Type} (ops : TaskOps π σ) (env : Env α) :
    Nat → scanTask π σ → Option (List GoError × scanTask π σ)
  | 0, t => some ([], t)
  | k + 1, t =>
    match tryExecuteAsync ops env t with
    | (some (.err e), t1) =>
      match failedAttempts ops env k t1 with
      | some (es, t2) => some (e :: es, t2)
      | none => none
    | _ => none

/-- The `Utxo` that `tryExecute` makes of a reference found for an address and its script. -/
def utxoOf (script : Script) (address : MuunAddress) (unspentRef : UnspentRef) : Utxo :=
  { TxID := unspentRef.TxHash, OutputIndex := unspentRef.TxPos, Amount := unspentRef.Value,
    Script := script, Address := address }

/-- The client methods `ops`, with `SupportsBatching` answering `b` whatever the state. -/
def withBatching {π σ : Type} (ops : TaskOps π σ) (b : Bool) : TaskOps π σ :=
  { ops with SupportsBatching := fun _ => b }

/-- The provider after `j` calls of `NextServer`. -/
def rotate {π σ : Type} (ops : TaskOps π σ) : Nat → π → π
  | 0, p => p
  | j + 1, p => rotate ops j (ops.NextServer p).2

/-- The value of `lastError` after the errors `es` were received, `lastError` before. -/
def lastErrorAfter (lastError : Option GoError) (es : List GoError) : Option GoError :=
  match es.getLast? with
  | some e => some e
  | none => lastError

/-- The prefix of the format string of the time-out error of `Execute`. -/
def timedOutPrefix : String := "Task timed out. Last error: "

/-- What the pool keeps true: the channel has its capacity, and the clients waiting in
it together with the clients held are the clients `NewPool` made. -/
def PoolInv (size : Nat) (s : PoolSys) : Prop :=
  s.pool.nextClient.cap = size
    ∧ List.Perm (s.pool.nextClient.buf ++ s.held) ((List.range size).map ClientRef.mk)

/-! ## A simulated client and library, for the examples -/

/-- Modelled from the spec: the Server Provider of the examples (`ServerProvider` is not
among the sources, and the theorems take its `NextServer` as a parameter). It owns the
list of endpoints and a rotation pointer. -/
structure ServerProvider where
  servers : List String
  nextIndex : Nat
  deriving DecidableEq, Repr

/-- Modelled from the spec: `NextServer` of the examples returns an endpoint and advances
the rotation, so that repeated calls cycle through the list, wrapping around. -/
def ServerProvider.NextServer (p : ServerProvider) : String × ServerProvider :=
  (p.servers.getD (p.nextIndex % p.servers.length) "", { p with nextIndex := p.nextIndex + 1 })

/-- A simulated client: whether it is connected, and the calls it made to a server,
the latest last. -/
structure SimClient where
  connected : Bool
  calls : List String
  deriving DecidableEq, Repr

/-- Client methods over a simulated server side: `accepts` tells the endpoints that take
a connection, `batching` whether batches are supported, `resp` the answer to a single
listing and `batch` the answer to a batched one. -/
def simOps (accepts : String → Bool) (batching : Bool) (resp : String → List UnspentRef)
    (batch : List String → List (List UnspentRef)) : TaskOps ServerProvider SimClient where
  NextServer p := p.NextServer
  IsConnected c := c.connected
  Connect c server :=
    if accepts server then
      (none, { connected := true, calls := c.calls ++ ["Connect " ++ server] })
    else
      (some (.leaf ("connection refused: " ++ server)),
        { connected := false, calls := c.calls ++ ["Connect " ++ server] })
  Disconnect c := { c with connected := false }
  SupportsBatching _ := batching
  ListUnspent c h := (.ok (resp h), { c with calls := c.calls ++ ["ListUnspent " ++ h] })
  ListUnspentBatch c hs := (.ok (batch hs), { c with calls := c.calls ++ ["ListUnspentBatch"] })

/-- A simulated library: the text `bad` is no address, the script of an address is
its character codes and the index hash of a script is its length in unary. -/
def simEnv : Env String where
  DecodeAddress raw :=
    if raw = "bad" then .error (.leaf "decoded address is of unknown format") else .ok raw
  PayToAddrScript a := .ok (a.toList.map Char.toNat)
  GetIndexHash script := String.mk (List.replicate script.length 'i')

/-- An address with the given text. -/
def simAddress (raw : String) : MuunAddress :=
  { Version := 4, DerivationPath := "m", Address := raw }

/-- Three endpoints, of which only the third takes connections in the examples. -/
def simServers : ServerProvider := { servers := ["s0", "s1", "s2"], nextIndex := 0 }

/-- A task on a client that starts disconnected. -/
def simTask (addresses : List String) : scanTask ServerProvider SimClient :=
  { servers := simServers, client := { connected := false, calls := [] },
    addresses := addresses.map simAddress }

/-- The answer of the simulated server to one index hash. -/
def simResp (h : String) : List UnspentRef :=
  if h = "i" then [{ TxHash := "aa", TxPos := 0, Value := 1000 }]
  else if h = "ii" then []
  else [{ TxHash := "bb", TxPos := 1, Value := 2000 }, { TxHash := "cc", TxPos := 0, Value := 3000 }]

/-- The operations of a client all of whose connections are refused. -/
def refusingOps : TaskOps ServerProvider SimClient :=
  simOps (fun _ => false) false simResp (fun hs => hs.map simResp)

/-- The errors of two refused connections, to the first and to the second endpoint. -/
def refusedTwice : List GoError :=
  [GoError.leaf "connection refused: s0", GoError.leaf "connection refused: s1"]

/-- The task `simTask ["a"]` after two refused connections. -/
def simTaskRefusedTwice : scanTask ServerProvider SimClient :=
  { servers := { servers := ["s0", "s1", "s2"], nextIndex := 2 },
    client := { connected := false, calls := ["Connect s0", "Connect s1"] },
    addresses := [simAddress "a"] }

/-- The operations of a client to which only the endpoint `s2` answers, without batching. -/
def thirdServerOps : TaskOps ServerProvider SimClient :=
  simOps (fun server => server == "s2") false simResp (fun hs => hs.map simResp)

/-- The task `simTask ["a", "bb", "ccc"]` after two refused connections. -/
def simTask3RefusedTwice : scanTask ServerProvider SimClient :=
  { servers := { servers := ["s0", "s1", "s2"], nextIndex := 2 },
    client := { connected := false, calls := ["Connect s0", "Connect s1"] },
    addresses := [simAddress "a", simAddress "bb", simAddress "ccc"] }

/-- The task `simTask ["a", "bb", "ccc"]` after the third attempt, which succeeded. -/
def simTask3Done : scanTask ServerProvider SimClient :=
  { servers := { servers := ["s0", "s1", "s2"], nextIndex := 3 },
    client := { connected := true,
                calls := ["Connect s0", "Connect s1", "Connect s2", "ListUnspent i",
                  "ListUnspent ii", "ListUnspent iii"] },
    addresses := [simAddress "a", simAddress "bb", simAddress "ccc"] }

/-- The UTXOs of the addresses `a`, `bb` and `ccc` on the simulated server. -/
def simUtxos3 : Slice Utxo :=
  some [utxoOf [97] (simAddress "a") { TxHash := "aa", TxPos := 0, Value := 1000 },
    utxoOf [99, 99, 99] (simAddress "ccc") { TxHash := "bb", TxPos := 1, Value := 2000 },
    utxoOf [99, 99, 99] (simAddress "ccc") { TxHash := "cc", TxPos := 0, Value := 3000 }]

/-- The operations of a client to which every endpoint answers, every index hash `h`
being answered `simResp h`, singly or in a batch. -/
def acceptingOps (batching : Bool) : TaskOps ServerProvider SimClient :=
  simOps (fun _ => true) batching simResp (fun hs => hs.map simResp)

/-- The task `simTask addresses` once connected to the first endpoint. -/
def simTaskConnected (addresses : List String) : scanTask ServerProvider SimClient :=
  { servers := { servers := ["s0", "s1", "s2"], nextIndex := 1 },
    client := { connected := true, calls := ["Connect s0"] },
    addresses := addresses.map simAddress }

/-- The error of `getOutputScripts` on the address `bad` of the simulated library. -/
def simScriptError : GoError :=
  GoError.wrap "Failed to decode address bad: decoded address is of unknown format"
    (GoError.leaf "decoded address is of unknown format")

/-- The operations of a batching client whose server answers a batch with the group of
the first index hash only. -/
def shortBatchOps : TaskOps ServerProvider SimClient :=
  simOps (fun _ => true) true simResp (fun hs => (hs.map simResp).take 1)

/-- The operations of a batching client whose server answers a batch with one group too
many, the last one holding a reference. -/
def longBatchOps : TaskOps ServerProvider SimClient :=
  simOps (fun _ => true) true simResp
    (fun hs => hs.map simResp ++ [[{ TxHash := "dd", TxPos := 0, Value := 1 }]])

/-- The simulated client after it connected and asked one batch. -/
def simClientBatched : SimClient :=
  { connected := true, calls := ["Connect s0", "ListUnspentBatch"] }

/-! # Properties -/

/-! ## Properties of `Execute` -/

theorem executeLoop_failedAttempts {π σ α : Type} (ops : TaskOps π σ) (env : Env α) (k : Nat) :
    ∀ (t t1 : scanTask π σ) (es : List GoError) (lastError : Option GoError) (rest : List Event),
      failedAttempts ops env k t = some (es, t1) →
      executeLoop ops env t lastError (List.replicate k Event.attempt ++ rest)
        = executeLoop ops env t1 (lastErrorAfter lastError es) rest := by
  induction k with
  | zero =>
    intro t t1 es lastError rest h
    simp only [failedAttempts, Option.some.injEq, Prod.mk.injEq] at h
    obtain ⟨rfl, rfl⟩ := h
    simp [lastErrorAfter]
  | succ k ih =>
    intro t t1 es lastError rest h
    simp only [failedAttempts] at h
    rw [List.replicate_succ, List.cons_append, executeLoop]
    rcases hx : tryExecuteAsync ops env t with ⟨sent, t2⟩
    rw [hx] at h
    rcases sent with _ | (r | e)
    · simp at h
    · simp at h
    · simp only at h
      rcases hf : failedAttempts ops env k t2 with _ | ⟨es2, t3⟩
      · rw [hf] at h; simp at h
      · rw [hf] at h
        simp only [Option.some.injEq, Prod.mk.injEq] at h
        obtain ⟨rfl, rfl⟩ := h
        simp only
        rw [ih t2 t3 es2 (some e) rest hf]
        congr 1
        cases es2 with
        | nil => simp [lastErrorAfter]
        | cons a l =>
          have hne : (a :: l).getLast? ≠ none := by simp
          simp only [lastErrorAfter]
          rcases hl : (a :: l).getLast? with _ | x
          · exact absurd hl hne
          · have h2 : (e :: a :: l).getLast? = some x := by
              rw [List.getLast?_cons_cons]; exact hl
            rw [h2]

theorem failedAttempts_length {π σ α : Type} (ops : TaskOps π σ) (env : Env α) (k : Nat) :
    ∀ (t t1 : scanTask π σ) (es : List GoError),
      failedAttempts ops env k t = some (es, t1) → es.length = k := by
  induction k with
  | zero =>
    intro t t1 es h
    simp only [failedAttempts, Option.some.injEq, Prod.mk.injEq] at h
    simp [← h.1]
  | succ k ih =>
    intro t t1 es h
    simp only [failedAttempts] at h
    rcases hx : tryExecuteAsync ops env t with ⟨sent, t2⟩
    rw [hx] at h
    rcases sent with _ | (r | e)
    · simp at h
    · simp at h
    · simp only at h
      rcases hf : failedAttempts ops env k t2 with _ | ⟨es2, t3⟩
      · rw [hf] at h; simp at h
      · rw [hf] at h
        simp only [Option.some.injEq, Prod.mk.injEq] at h
        obtain ⟨rfl, rfl⟩ := h
        simp [ih t2 t3 es2 hf]

theorem executeLoop_nil {π σ α : Type} (ops : TaskOps π σ) (env : Env α) (t : scanTask π σ)
    (lastError : Option GoError) : executeLoop ops env t lastError [] = none := by
  simp [executeLoop]

/-- C1. After any number `k` of failed attempts (errors `es`), when the next event the
`select` observes is the exit signal, `Execute` returns the empty list `[]Utxo{}` and a
nil error; none of the errors `es` is reported. -/
theorem C1_exit_returns_empty_no_error {π σ α : Type} (ops : TaskOps π σ) (env : Env α)
    (t t1 : scanTask π σ) (k : Nat) (es : List GoError) (rest : List Event)
    (h : failedAttempts ops env k t = some (es, t1)) :
    Execute ops env t (List.replicate k Event.attempt ++ Event.exit :: rest)
      = some (Verdict.returned (some []) none, t1) := by
  unfold Execute
  rw [executeLoop_failedAttempts ops env k t t1 es none _ h]
  simp [executeLoop]

theorem C1_exit_returns_empty_no_error_witness :
    failedAttempts refusingOps simEnv 2 (simTask ["a"]) = some (refusedTwice, simTaskRefusedTwice)
      ∧ Execute refusingOps simEnv (simTask ["a"])
          [Event.attempt, Event.attempt, Event.exit, Event.timeout]
        = some (Verdict.returned (some []) none, simTaskRefusedTwice) :=
  ⟨by decide,
    C1_exit_returns_empty_no_error refusingOps simEnv (simTask ["a"]) simTaskRefusedTwice 2
      refusedTwice [Event.timeout] (by decide)⟩

theorem failedAttempts_prefix {π σ α : Type} (ops : TaskOps π σ) (env : Env α) (k : Nat) :
    ∀ (t t1 : scanTask π σ) (es : List GoError) (j : Nat),
      failedAttempts ops env k t = some (es, t1) → j ≤ k →
      ∃ tj, failedAttempts ops env j t = some (es.take j, tj) := by
  induction k with
  | zero =>
    intro t t1 es j h hj
    obtain rfl : j = 0 := by omega
    exact ⟨t, by simp [failedAttempts]⟩
  | succ k ih =>
    intro t t1 es j h hj
    cases j with
    | zero => exact ⟨t, by simp [failedAttempts]⟩
    | succ j =>
      simp only [failedAttempts] at h ⊢
      rcases hx : tryExecuteAsync ops env t with ⟨sent, t2⟩
      rw [hx] at h
      rcases sent with _ | (r | e)
      · simp at h
      · simp at h
      · simp only at h ⊢
        rcases hf : failedAttempts ops env k t2 with _ | ⟨es2, t3⟩
        · rw [hf] at h; simp at h
        · rw [hf] at h
          simp only [Option.some.injEq, Prod.mk.injEq] at h
          obtain ⟨rfl, rfl⟩ := h
          obtain ⟨tj, htj⟩ := ih t2 t3 es2 j hf (by omega)
          exact ⟨tj, by rw [htj]; simp⟩

/-- C2. When the first `k ≥ 1` attempts all fail, with errors `es`, `Execute` keeps
retrying after each of them (it has not returned after any `j ≤ k` of them), and when
the deadline is observed next it returns a nil result and an error that wraps the last
of `es`: unwrapping the returned error gives exactly that error. -/
theorem C2_timeout_wraps_last_error {π σ α : Type} (ops : TaskOps π σ) (env : Env α)
    (t t1 : scanTask π σ) (k : Nat) (es : List GoError) (rest : List Event)
    (hk : 1 ≤ k) (h : failedAttempts ops env k t = some (es, t1)) :
    ∃ ek err, es.getLast? = some ek ∧ es.length = k
      ∧ (∀ j, j ≤ k → Execute ops env t (List.replicate j Event.attempt) = none)
      ∧ Execute ops env t (List.replicate k Event.attempt ++ Event.timeout :: rest)
          = some (Verdict.returned none (some err), t1)
      ∧ err.Unwrap = some ek := by
  have hlen := failedAttempts_length ops env k t t1 es h
  have hne : es ≠ [] := by
    intro h0; rw [h0] at hlen; simp at hlen; omega
  refine ⟨es.getLast hne, Errorf timedOutPrefix (some (es.getLast hne)),
    List.getLast?_eq_getLast es hne, hlen, ?_, ?_, rfl⟩
  · intro j hj
    obtain ⟨tj, htj⟩ := failedAttempts_prefix ops env k t t1 es j h hj
    have := executeLoop_failedAttempts ops env j t tj (es.take j) none [] htj
    rw [List.append_nil] at this
    unfold Execute
    rw [this, executeLoop_nil]
  · unfold Execute
    rw [executeLoop_failedAttempts ops env k t t1 es none _ h]
    simp [executeLoop, lastErrorAfter, List.getLast?_eq_getLast es hne, timedOutPrefix]

theorem C2_timeout_wraps_last_error_witness :
    (1 ≤ 2 ∧ failedAttempts refusingOps simEnv 2 (simTask ["a"])
        = some (refusedTwice, simTaskRefusedTwice))
      ∧ ∃ ek err, refusedTwice.getLast? = some ek ∧ refusedTwice.length = 2
        ∧ (∀ j, j ≤ 2 →
            Execute refusingOps simEnv (simTask ["a"]) (List.replicate j Event.attempt) = none)
        ∧ Execute refusingOps simEnv (simTask ["a"])
              (List.replicate 2 Event.attempt ++ Event.timeout :: [])
            = some (Verdict.returned none (some err), simTaskRefusedTwice)
        ∧ err.Unwrap = some ek :=
  ⟨⟨by decide, by decide⟩,
    C2_timeout_wraps_last_error refusingOps simEnv (simTask ["a"]) simTaskRefusedTwice 2
      refusedTwice [] (by decide) (by decide)⟩

/-- C9. When the deadline is the first event observed, no error having been received,
`Execute` returns a nil result and the error that `fmt.Errorf` makes of the time-out
format with a nil operand: its message is the time-out text ending in the bad-verb
mark `%!w(<nil>)`, and it is not a separate "no attempts succeeded" error. -/
theorem C9_timeout_before_any_error {π σ α : Type} (ops : TaskOps π σ) (env : Env α)
    (t : scanTask π σ) (rest : List Event) :
    Execute ops env t (Event.timeout :: rest)
        = some (Verdict.returned none
            (some (GoError.leaf "Task timed out. Last error: %!w(<nil>)")), t)
      ∧ (GoError.leaf "Task timed out. Last error: %!w(<nil>)").Unwrap = none
      ∧ (GoError.leaf "Task timed out. Last error: %!w(<nil>)").Error
          ≠ "no attempts succeeded" := by
  refine ⟨?_, rfl, by decide⟩
  simp [Execute, executeLoop, Errorf]

/-! ## Attempts and the rotation of servers -/

theorem connectIfNeeded_disconnected {π σ : Type} (ops : TaskOps π σ) (t : scanTask π σ)
    (h : ops.IsConnected t.client = false) :
    connectIfNeeded ops t
      = ((ops.Connect t.client (ops.NextServer t.servers).1).1,
          { t with servers := (ops.NextServer t.servers).2,
                   client := (ops.Connect t.client (ops.NextServer t.servers).1).2 }) := by
  simp [connectIfNeeded, h]

theorem connectIfNeeded_connected {π σ : Type} (ops : TaskOps π σ) (t : scanTask π σ)
    (h : ops.IsConnected t.client = true) : connectIfNeeded ops t = (none, t) := by
  simp [connectIfNeeded, h]

theorem connectIfNeeded_addresses {π σ : Type} (ops : TaskOps π σ) (t : scanTask π σ) :
    (connectIfNeeded ops t).2.addresses = t.addresses := by
  unfold connectIfNeeded
  split <;> rfl

theorem tryExecute_servers {π σ α : Type} (ops : TaskOps π σ) (env : Env α) (t : scanTask π σ) :
    (tryExecute ops env t).2.servers = (connectIfNeeded ops t).2.servers
      ∧ (tryExecute ops env t).2.addresses = t.addresses := by
  have ha := connectIfNeeded_addresses ops t
  unfold tryExecute
  rcases hc : connectIfNeeded ops t with ⟨e, t1⟩
  rw [hc] at ha
  simp only at ha
  cases e with
  | some e => exact ⟨rfl, ha⟩
  | none =>
    simp only
    cases getOutputScripts env t1.addresses with
    | error e => exact ⟨rfl, ha⟩
    | ok outputScripts =>
      simp only [getIndexHashes]
      rcases listUnspentRefGroups ops t1.client (outputScripts.map env.GetIndexHash)
        with ⟨r, c2⟩
      cases r with
      | error e => exact ⟨rfl, ha⟩
      | ok groups => exact ⟨rfl, ha⟩

theorem tryExecuteAsync_servers {π σ α : Type} (ops : TaskOps π σ) (env : Env α)
    (t : scanTask π σ) :
    (tryExecuteAsync ops env t).2.servers = (connectIfNeeded ops t).2.servers
      ∧ (tryExecuteAsync ops env t).2.addresses = t.addresses := by
  have h := tryExecute_servers ops env t
  unfold tryExecuteAsync
  rcases hx : tryExecute ops env t with ⟨o, t1⟩
  rw [hx] at h
  cases o <;> exact h

/-- An attempt on a client that is not connected asks the provider once: the provider
is left as one call of `NextServer` leaves it. -/
theorem tryExecuteAsync_asks_once {π σ α : Type} (ops : TaskOps π σ) (env : Env α)
    (t : scanTask π σ) (h : ops.IsConnected t.client = false) :
    (tryExecuteAsync ops env t).2.servers = (ops.NextServer t.servers).2 := by
  rw [(tryExecuteAsync_servers ops env t).1, connectIfNeeded_disconnected ops t h]

/-- An attempt that fails leaves the client disconnected, `Disconnect` doing its work. -/
theorem tryExecuteAsync_err_disconnected {π σ α : Type} (ops : TaskOps π σ) (env : Env α)
    (hDisc : ∀ c, ops.IsConnected (ops.Disconnect c) = false)
    (t t1 : scanTask π σ) (e : GoError) (h : tryExecuteAsync ops env t = (some (Sent.err e), t1)) :
    ops.IsConnected t1.client = false := by
  unfold tryExecuteAsync at h
  rcases hx : tryExecute ops env t with ⟨o, t2⟩
  rw [hx] at h
  cases o with
  | ok r => simp at h
  | outOfRange => simp at h
  | error e2 =>
    simp only [Prod.mk.injEq] at h
    rw [← h.2]
    exact hDisc _

theorem rotate_succ {π σ : Type} (ops : TaskOps π σ) (j : Nat) :
    ∀ (p : π), rotate ops (j + 1) p = (ops.NextServer (rotate ops j p)).2 := by
  induction j with
  | zero => intro p; rfl
  | succ j ih =>
    intro p
    have h := ih (ops.NextServer p).2
    simpa only [rotate] using h

theorem failedAttempts_rotation {π σ α : Type} (ops : TaskOps π σ) (env : Env α)
    (hDisc : ∀ c, ops.IsConnected (ops.Disconnect c) = false) (k : Nat) :
    ∀ (t t1 : scanTask π σ) (es : List GoError),
      ops.IsConnected t.client = false →
      failedAttempts ops env k t = some (es, t1) →
      ops.IsConnected t1.client = false ∧ t1.servers = rotate ops k t.servers := by
  induction k with
  | zero =>
    intro t t1 es h0 h
    simp only [failedAttempts, Option.some.injEq, Prod.mk.injEq] at h
    obtain ⟨_, rfl⟩ := h
    exact ⟨h0, rfl⟩
  | succ k ih =>
    intro t t1 es h0 h
    simp only [failedAttempts] at h
    have hidx := tryExecuteAsync_asks_once ops env t h0
    rcases hx : tryExecuteAsync ops env t with ⟨sent, t2⟩
    rw [hx] at h hidx
    rcases sent with _ | (r | e)
    · simp at h
    · simp at h
    · simp only at h hidx
      rcases hf : failedAttempts ops env k t2 with _ | ⟨es2, t3⟩
      · rw [hf] at h; simp at h
      · rw [hf] at h
        simp only [Option.some.injEq, Prod.mk.injEq] at h
        obtain ⟨_, rfl⟩ := h
        have hd := tryExecuteAsync_err_disconnected ops env hDisc t t2 e hx
        obtain ⟨h1, h2⟩ := ih t2 t3 es2 hd hf
        exact ⟨h1, by rw [h2, hidx]; rfl⟩

/-- C3. On a client that starts disconnected and whose `Disconnect` leaves it not
connected: when the first `k` attempts fail and attempt `k + 1` succeeds with the
list `U`, `Execute` returns exactly `(U, nil)`. Every attempt starts on a disconnected
client and asks the provider exactly once: after `j ≤ k` failed attempts the provider
is `j` calls of `NextServer` away from where it started, `k` calls when the successful
attempt begins and `k + 1` calls when it has ended. -/
theorem C3_fail_k_times_then_succeed {π σ α : Type} (ops : TaskOps π σ) (env : Env α)
    (t t1 t2 : scanTask π σ) (k : Nat) (es : List GoError) (U : Slice Utxo) (rest : List Event)
    (hDisc : ∀ c, ops.IsConnected (ops.Disconnect c) = false)
    (h0 : ops.IsConnected t.client = false)
    (hf : failedAttempts ops env k t = some (es, t1))
    (hs : tryExecuteAsync ops env t1 = (some (Sent.result U), t2)) :
    Execute ops env t (List.replicate (k + 1) Event.attempt ++ rest)
        = some (Verdict.returned U none, t2)
      ∧ (∀ j esj tj, j ≤ k → failedAttempts ops env j t = some (esj, tj) →
          ops.IsConnected tj.client = false
            ∧ tj.servers = rotate ops j t.servers
            ∧ (tryExecuteAsync ops env tj).2.servers = (ops.NextServer tj.servers).2)
      ∧ t1.servers = rotate ops k t.servers
      ∧ t2.servers = rotate ops (k + 1) t.servers := by
  have hrot := failedAttempts_rotation ops env hDisc k t t1 es h0 hf
  refine ⟨?_, ?_, hrot.2, ?_⟩
  · unfold Execute
    rw [List.replicate_succ', List.append_assoc,
      executeLoop_failedAttempts ops env k t t1 es none _ hf]
    simp [executeLoop, hs]
  · intro j esj tj _ hj
    obtain ⟨hc, hi⟩ := failedAttempts_rotation ops env hDisc j t tj esj h0 hj
    exact ⟨hc, hi, tryExecuteAsync_asks_once ops env tj hc⟩
  · have := tryExecuteAsync_asks_once ops env t1 hrot.1
    rw [hs] at this
    simp only at this
    rw [this, hrot.2, rotate_succ]

theorem C3_fail_k_times_then_succeed_witness :
    ((∀ c, thirdServerOps.IsConnected (thirdServerOps.Disconnect c) = false)
      ∧ thirdServerOps.IsConnected (simTask ["a", "bb", "ccc"]).client = false
      ∧ failedAttempts thirdServerOps simEnv 2 (simTask ["a", "bb", "ccc"])
          = some (refusedTwice, simTask3RefusedTwice)
      ∧ tryExecuteAsync thirdServerOps simEnv simTask3RefusedTwice
          = (some (Sent.result simUtxos3), simTask3Done))
    ∧ (Execute thirdServerOps simEnv (simTask ["a", "bb", "ccc"])
          (List.replicate (2 + 1) Event.attempt ++ [])
        = some (Verdict.returned simUtxos3 none, simTask3Done)
      ∧ (∀ j esj tj, j ≤ 2 →
          failedAttempts thirdServerOps simEnv j (simTask ["a", "bb", "ccc"]) = some (esj, tj) →
          thirdServerOps.IsConnected tj.client = false
            ∧ tj.servers = rotate thirdServerOps j (simTask ["a", "bb", "ccc"]).servers
            ∧ (tryExecuteAsync thirdServerOps simEnv tj).2.servers
                = (thirdServerOps.NextServer tj.servers).2)
      ∧ simTask3RefusedTwice.servers
          = rotate thirdServerOps 2 (simTask ["a", "bb", "ccc"]).servers
      ∧ simTask3Done.servers
          = rotate thirdServerOps (2 + 1) (simTask ["a", "bb", "ccc"]).servers) :=
  ⟨⟨fun _ => rfl, by decide, by decide, by decide⟩,
    C3_fail_k_times_then_succeed thirdServerOps simEnv (simTask ["a", "bb", "ccc"])
      simTask3RefusedTwice simTask3Done 2 refusedTwice simUtxos3 []
      (fun _ => rfl) (by decide) (by decide) (by decide)⟩

/-! ## The UTXOs of an attempt -/

theorem getOutputScripts_length {α : Type} (env : Env α) :
    ∀ (addresses : List MuunAddress) (scripts : List Script),
      getOutputScripts env addresses = .ok scripts → scripts.length = addresses.length := by
  intro addresses
  induction addresses with
  | nil =>
    intro scripts h
    simp only [getOutputScripts, Except.ok.injEq] at h
    simp [← h]
  | cons a rest ih =>
    intro scripts h
    simp only [getOutputScripts] at h
    split at h
    · simp at h
    · split at h
      · simp at h
      · split at h
        · simp at h
        · rename_i outputScripts hrest
          simp only [Except.ok.injEq] at h
          rw [← h]
          simp [ih outputScripts hrest]

theorem compileGroup_ok (outputScripts : List Script) (addresses : List MuunAddress) (i : Nat)
    (script : Script) (address : MuunAddress)
    (hs : outputScripts[i]? = some script) (ha : addresses[i]? = some address) :
    ∀ (group : List UnspentRef) (utxos : Slice Utxo),
      ∃ r, compileGroup outputScripts addresses i group utxos = .ok r
        ∧ sliceElems r = sliceElems utxos ++ group.map (utxoOf script address) := by
  intro group
  induction group with
  | nil => intro utxos; exact ⟨utxos, by simp [compileGroup]⟩
  | cons unspentRef rest ih =>
    intro utxos
    simp only [compileGroup, hs, ha]
    obtain ⟨r, hr, he⟩ := ih (sliceAppend utxos (utxoOf script address unspentRef))
    refine ⟨r, hr, ?_⟩
    rw [he]
    simp [sliceAppend, sliceElems]

theorem compileUtxos_ok (outputScripts : List Script) (addresses : List MuunAddress)
    (hlen : outputScripts.length = addresses.length) :
    ∀ (groups : List (List UnspentRef)) (i : Nat) (utxos : Slice Utxo),
      i + groups.length ≤ outputScripts.length →
      ∃ r, compileUtxos outputScripts addresses i groups utxos = .ok r
        ∧ sliceElems r = sliceElems utxos
            ++ (List.zip groups (List.zip (outputScripts.drop i) (addresses.drop i))).flatMap
                (fun x => x.1.map (utxoOf x.2.1 x.2.2)) := by
  intro groups
  induction groups with
  | nil => intro i utxos _; exact ⟨utxos, by simp [compileUtxos]⟩
  | cons group rest ih =>
    intro i utxos hi
    simp only [List.length_cons] at hi
    have h1 : i < outputScripts.length := by omega
    have h2 : i < addresses.length := by omega
    obtain ⟨r1, hr1, he1⟩ := compileGroup_ok outputScripts addresses i outputScripts[i]
      addresses[i] (List.getElem?_eq_getElem h1) (List.getElem?_eq_getElem h2) group utxos
    obtain ⟨r, hr, he⟩ := ih (i + 1) r1 (by omega)
    refine ⟨r, ?_, ?_⟩
    · simp only [compileUtxos, hr1]
      exact hr
    · rw [he, he1, List.drop_eq_getElem_cons h1, List.drop_eq_getElem_cons h2]
      simp only [List.zip_cons_cons, List.flatMap_cons, List.append_assoc]

theorem length_zip_flatMap (f : List UnspentRef × Script × MuunAddress → UnspentRef → Utxo) :
    ∀ (groups : List (List UnspentRef)) (ys : List (Script × MuunAddress)),
      groups.length ≤ ys.length →
      ((List.zip groups ys).flatMap (fun x => x.1.map (f x))).length
        = (groups.map List.length).sum := by
  intro groups
  induction groups with
  | nil => intro ys _; simp
  | cons g rest ih =>
    intro ys h
    cases ys with
    | nil => simp at h
    | cons y ys =>
      simp only [List.length_cons, Nat.add_le_add_iff_right] at h
      simp [ih ys h]

/-- An attempt that connects (or is connected), gets its scripts and is answered at most
one group per address returns the UTXOs of the groups, each group with the script and
the address of the same index. -/
theorem tryExecute_ok_of_groups {π σ α : Type} (ops : TaskOps π σ) (env : Env α)
    (t t1 : scanTask π σ) (scripts : List Script) (groups : List (List UnspentRef)) (client2 : σ)
    (hc : connectIfNeeded ops t = (none, t1))
    (hsc : getOutputScripts env t.addresses = .ok scripts)
    (hl : listUnspentRefGroups ops t1.client (scripts.map env.GetIndexHash)
      = (.ok groups, client2))
    (hn : groups.length ≤ t.addresses.length) :
    ∃ utxos, tryExecute ops env t = (Outcome.ok utxos, { t1 with client := client2 })
      ∧ sliceElems utxos = (List.zip groups (List.zip scripts t.addresses)).flatMap
          (fun x => x.1.map (utxoOf x.2.1 x.2.2))
      ∧ (sliceElems utxos).length = (groups.map List.length).sum := by
  have ha : t1.addresses = t.addresses := by
    have := connectIfNeeded_addresses ops t
    rw [hc] at this
    exact this
  have hlen := getOutputScripts_length env t.addresses scripts hsc
  obtain ⟨r, hr, he⟩ := compileUtxos_ok scripts t.addresses hlen groups 0 none
    (by rw [hlen]; omega)
  refine ⟨r, ?_, ?_, ?_⟩
  · simp only [tryExecute, hc, ha, hsc, getIndexHashes]
    rw [← ha, hl]
    simp only [ha, hr]
  · rw [he]
    simp [sliceElems]
  · rw [he]
    simp only [sliceElems, Option.getD_none, List.nil_append, List.drop_zero]
    exact length_zip_flatMap (fun x => utxoOf x.2.1 x.2.2) groups (List.zip scripts t.addresses)
      (by rw [List.length_zip, hlen]; simpa using hn)

/-- C4. For addresses `a_0..a_{n-1}` with scripts `s_0..s_{n-1}` and a listing that
succeeds with `n` groups, `tryExecute` returns, group after group and in the order of
the references inside each group, the `Utxo` made of each reference with the script and
the address of its group's index, and nothing else; their number is the sum of the
sizes of the groups, an empty group adding nothing and causing no error. -/
theorem C4_utxos_pair_groups_with_addresses {π σ α : Type} (ops : TaskOps π σ) (env : Env α)
    (t t1 : scanTask π σ) (scripts : List Script) (groups : List (List UnspentRef)) (client2 : σ)
    (hc : connectIfNeeded ops t = (none, t1))
    (hsc : getOutputScripts env t.addresses = .ok scripts)
    (hl : listUnspentRefGroups ops t1.client (scripts.map env.GetIndexHash)
      = (.ok groups, client2))
    (hn : groups.length = t.addresses.length) :
    scripts.length = t.addresses.length
      ∧ ∃ utxos, tryExecute ops env t = (Outcome.ok utxos, { t1 with client := client2 })
        ∧ sliceElems utxos = (List.zip groups (List.zip scripts t.addresses)).flatMap
            (fun x => x.1.map (fun r =>
              { TxID := r.TxHash, OutputIndex := r.TxPos, Amount := r.Value,
                Script := x.2.1, Address := x.2.2 }))
        ∧ (sliceElems utxos).length = (groups.map List.length).sum :=
  ⟨getOutputScripts_length env t.addresses scripts hsc,
    tryExecute_ok_of_groups ops env t t1 scripts groups client2 hc hsc hl (by omega)⟩

theorem C4_utxos_pair_groups_with_addresses_witness :
    (connectIfNeeded (acceptingOps false) (simTask ["a", "bb", "ccc"])
        = (none, simTaskConnected ["a", "bb", "ccc"])
      ∧ getOutputScripts simEnv (simTask ["a", "bb", "ccc"]).addresses
          = .ok [[97], [98, 98], [99, 99, 99]]
      ∧ listUnspentRefGroups (acceptingOps false) (simTaskConnected ["a", "bb", "ccc"]).client
            ([[97], [98, 98], [99, 99, 99]].map simEnv.GetIndexHash)
          = (.ok [simResp "i", simResp "ii", simResp "iii"],
              { connected := true,
                calls := ["Connect s0", "ListUnspent i", "ListUnspent ii", "ListUnspent iii"] })
      ∧ [simResp "i", simResp "ii", simResp "iii"].length
          = (simTask ["a", "bb", "ccc"]).addresses.length)
    ∧ ([[97], [98, 98], [99, 99, 99]].length = (simTask ["a", "bb", "ccc"]).addresses.length
      ∧ ∃ utxos, tryExecute (acceptingOps false) simEnv (simTask ["a", "bb", "ccc"])
          = (Outcome.ok utxos,
              { servers := (simTaskConnected ["a", "bb", "ccc"]).servers,
                client :=
                  { connected := true,
                    calls := ["Connect s0", "ListUnspent i", "ListUnspent ii",
                      "ListUnspent iii"] },
                addresses := (simTaskConnected ["a", "bb", "ccc"]).addresses })
        ∧ sliceElems utxos
            = (List.zip [simResp "i", simResp "ii", simResp "iii"]
                (List.zip [[97], [98, 98], [99, 99, 99]]
                  (simTask ["a", "bb", "ccc"]).addresses)).flatMap
                (fun x => x.1.map (fun r =>
                  { TxID := r.TxHash, OutputIndex := r.TxPos, Amount := r.Value,
                    Script := x.2.1, Address := x.2.2 }))
        ∧ (sliceElems utxos).length
            = ([simResp "i", simResp "ii", simResp "iii"].map List.length).sum) :=
  ⟨⟨by decide, rfl, rfl, by decide⟩,
    C4_utxos_pair_groups_with_addresses (acceptingOps false) simEnv
      (simTask ["a", "bb", "ccc"]) (simTaskConnected ["a", "bb", "ccc"])
      [[97], [98, 98], [99, 99, 99]] [simResp "i", simResp "ii", simResp "iii"]
      { connected := true,
        calls := ["Connect s0", "ListUnspent i", "ListUnspent ii", "ListUnspent iii"] }
      (by decide) rfl rfl (by decide)⟩

/-! ## Batched and single listings -/

theorem listUnspentLoop_resp {π σ : Type} (ops : TaskOps π σ) (resp : String → List UnspentRef)
    (h1 : ∀ c h, (ops.ListUnspent c h).1 = .ok (resp h)) :
    ∀ (indexHashes : List String) (client : σ) (acc : List (List UnspentRef)),
      (listUnspentLoop ops client indexHashes acc).1 = .ok (acc ++ indexHashes.map resp) := by
  intro indexHashes
  induction indexHashes with
  | nil => intro client acc; simp [listUnspentLoop]
  | cons h rest ih =>
    intro client acc
    have hh := h1 client h
    rcases hx : ops.ListUnspent client h with ⟨r, c1⟩
    rw [hx] at hh
    simp only at hh
    subst hh
    simp only [listUnspentLoop, hx]
    rw [ih c1 (acc ++ [resp h])]
    simp

theorem listUnspentWithBatching_resp {π σ : Type} (ops : TaskOps π σ)
    (resp : String → List UnspentRef)
    (hb : ∀ c hs, (ops.ListUnspentBatch c hs).1 = .ok (hs.map resp))
    (client : σ) (indexHashes : List String) :
    (listUnspentWithBatching ops client indexHashes).1 = .ok (indexHashes.map resp) := by
  have hh := hb client indexHashes
  rcases hx : ops.ListUnspentBatch client indexHashes with ⟨r, c1⟩
  rw [hx] at hh
  simp only at hh
  subst hh
  simp [listUnspentWithBatching, hx]

/-- The outcome of an attempt, from the outcomes of its steps. -/
theorem tryExecute_outcome {π σ α : Type} (ops : TaskOps π σ) (env : Env α) (t : scanTask π σ) :
    (tryExecute ops env t).1
      = match (connectIfNeeded ops t).1 with
        | some err => Outcome.error err
        | none =>
          match getOutputScripts env t.addresses with
          | .error err => Outcome.error err
          | .ok outputScripts =>
            match (listUnspentRefGroups ops (connectIfNeeded ops t).2.client
                (outputScripts.map env.GetIndexHash)).1 with
            | .error err => Outcome.error err
            | .ok groups => compileUtxos outputScripts t.addresses 0 groups none := by
  have ha := connectIfNeeded_addresses ops t
  unfold tryExecute
  rcases hc : connectIfNeeded ops t with ⟨e, t1⟩
  rw [hc] at ha
  simp only at ha
  cases e with
  | some e => rfl
  | none =>
    simp only [ha]
    cases getOutputScripts env t.addresses with
    | error e => rfl
    | ok outputScripts =>
      simp only [getIndexHashes]
      rcases listUnspentRefGroups ops t1.client (outputScripts.map env.GetIndexHash)
        with ⟨r, c2⟩
      cases r with
      | error e => rfl
      | ok groups => rfl

/-- C5. When the server answers every index hash `h` with the list `resp h`, asked
singly or in a batch (the batch answering the lists in the order of its hashes), the
attempt of a client that supports batching and the attempt of one that does not have
the same outcome: the same UTXOs in the same order, or the same error, so that one
fails exactly when the other does; neither reads outside the address list. -/
theorem C5_batching_agrees_with_single_listing {π σ α : Type} (ops : TaskOps π σ) (env : Env α)
    (t : scanTask π σ) (resp : String → List UnspentRef)
    (h1 : ∀ c h, (ops.ListUnspent c h).1 = .ok (resp h))
    (hb : ∀ c hs, (ops.ListUnspentBatch c hs).1 = .ok (hs.map resp)) :
    (tryExecute (withBatching ops true) env t).1 = (tryExecute (withBatching ops false) env t).1
      ∧ ((∃ e, (tryExecute (withBatching ops true) env t).1 = Outcome.error e)
          ↔ ∃ e, (tryExecute (withBatching ops false) env t).1 = Outcome.error e)
      ∧ (tryExecute (withBatching ops true) env t).1 ≠ Outcome.outOfRange := by
  have key : ∀ b, (tryExecute (withBatching ops b) env t).1
      = match (connectIfNeeded ops t).1 with
        | some err => Outcome.error err
        | none =>
          match getOutputScripts env t.addresses with
          | .error err => Outcome.error err
          | .ok outputScripts =>
            compileUtxos outputScripts t.addresses 0
              ((outputScripts.map env.GetIndexHash).map resp) none := by
    intro b
    rw [tryExecute_outcome]
    have hcn : connectIfNeeded (withBatching ops b) t = connectIfNeeded ops t := rfl
    rw [hcn]
    cases (connectIfNeeded ops t).1 with
    | some e => rfl
    | none =>
      simp only
      cases getOutputScripts env t.addresses with
      | error e => rfl
      | ok outputScripts =>
        simp only
        have hlist : (listUnspentRefGroups (withBatching ops b) (connectIfNeeded ops t).2.client
            (outputScripts.map env.GetIndexHash)).1
            = .ok ((outputScripts.map env.GetIndexHash).map resp) := by
          cases b with
          | true =>
            simp only [listUnspentRefGroups, withBatching, if_true]
            exact listUnspentWithBatching_resp _ resp hb _ _
          | false =>
            simp only [listUnspentRefGroups, withBatching, Bool.false_eq_true, if_false,
              listUnspentWithoutBatching]
            have := listUnspentLoop_resp
              { ops with SupportsBatching := fun _ => false } resp h1
              (outputScripts.map env.GetIndexHash) (connectIfNeeded ops t).2.client []
            simpa using this
        rw [hlist]
  refine ⟨by rw [key true, key false], by rw [key true, key false], ?_⟩
  rw [key true]
  cases (connectIfNeeded ops t).1 with
  | some e => simp
  | none =>
    simp only
    rcases hsc : getOutputScripts env t.addresses with e | outputScripts
    · simp
    · simp only
      have hlen := getOutputScripts_length env t.addresses outputScripts hsc
      obtain ⟨r, hr, _⟩ := compileUtxos_ok outputScripts t.addresses hlen
        ((outputScripts.map env.GetIndexHash).map resp) 0 none (by simp)
      rw [hr]
      simp

theorem C5_batching_agrees_with_single_listing_witness :
    ((∀ c h, ((acceptingOps false).ListUnspent c h).1 = .ok (simResp h))
      ∧ (∀ c hs, ((acceptingOps false).ListUnspentBatch c hs).1 = .ok (hs.map simResp)))
    ∧ ((tryExecute (withBatching (acceptingOps false) true) simEnv
            (simTask ["a", "bb", "ccc"])).1
          = (tryExecute (withBatching (acceptingOps false) false) simEnv
              (simTask ["a", "bb", "ccc"])).1
      ∧ ((∃ e, (tryExecute (withBatching (acceptingOps false) true) simEnv
            (simTask ["a", "bb", "ccc"])).1 = Outcome.error e)
          ↔ ∃ e, (tryExecute (withBatching (acceptingOps false) false) simEnv
            (simTask ["a", "bb", "ccc"])).1 = Outcome.error e)
      ∧ (tryExecute (withBatching (acceptingOps false) true) simEnv
            (simTask ["a", "bb", "ccc"])).1 ≠ Outcome.outOfRange) :=
  ⟨⟨fun _ _ => rfl, fun _ _ => rfl⟩,
    C5_batching_agrees_with_single_listing (acceptingOps false) simEnv
      (simTask ["a", "bb", "ccc"]) simResp (fun _ _ => rfl) (fun _ _ => rfl)⟩

/-! ## The pool -/

theorem newPoolLoop_eq (size : Nat) :
    ∀ (fuel i : Nat) (ch : Chan ClientRef),
      ch.cap = size → ch.buf.length = i → i + fuel = size →
      newPoolLoop size fuel i ch
        = { buf := ch.buf ++ (List.range' i fuel).map ClientRef.mk, cap := size } := by
  intro fuel
  induction fuel with
  | zero =>
    intro i ch hcap _ _
    cases ch
    simp_all [newPoolLoop]
  | succ fuel ih =>
    intro i ch hcap hlen hsum
    have hi : i < size := by omega
    have hsend : ch.send { addr := i } = some { ch with buf := ch.buf ++ [{ addr := i }] } := by
      simp [Chan.send, hcap, hlen, hi]
    simp only [newPoolLoop, hi, if_true, hsend]
    rw [ih (i + 1) { buf := ch.buf ++ [{ addr := i }], cap := ch.cap } hcap
      (by simp [hlen]) (by omega)]
    simp [List.range'_succ]

theorem NewPool_nextClient (size : Nat) :
    (NewPool size).nextClient = { buf := (List.range size).map ClientRef.mk, cap := size } := by
  unfold NewPool
  rw [newPoolLoop_eq size size 0 (Chan.make size) rfl rfl (by omega)]
  simp [Chan.make, List.range_eq_range']

theorem poolStep_inv (size : Nat) (s s1 : PoolSys) (op : PoolOp)
    (hinv : PoolInv size s) (h : poolStep s op = some s1) : PoolInv size s1 := by
  obtain ⟨hcap, hperm⟩ := hinv
  cases op with
  | acquire =>
    simp only [poolStep, Pool.Acquire, Chan.recv] at h
    rcases hb : s.pool.nextClient.buf with _ | ⟨x, rest⟩
    · simp [hb] at h
    · simp only [hb, Option.some.injEq] at h
      subst h
      refine ⟨hcap, ?_⟩
      rw [hb] at hperm
      exact (List.perm_middle).trans hperm
  | release client =>
    simp only [poolStep] at h
    by_cases hmem : client ∈ s.held
    · simp only [hmem, if_true, Pool.Release, Chan.send] at h
      by_cases hroom : s.pool.nextClient.buf.length < s.pool.nextClient.cap
      · simp only [hroom, if_true, Option.map_some', Option.some.injEq] at h
        subst h
        refine ⟨hcap, ?_⟩
        simp only [List.append_assoc, List.singleton_append]
        exact ((List.perm_cons_erase hmem).symm.append_left _).trans hperm
      · simp [hroom] at h
    · simp [hmem] at h

theorem poolRun_inv (size : Nat) (ops : List PoolOp) :
    ∀ (s s1 : PoolSys), PoolInv size s → poolRun s ops = some s1 → PoolInv size s1 := by
  induction ops with
  | nil =>
    intro s s1 hinv h
    simp only [poolRun, Option.some.injEq] at h
    exact h ▸ hinv
  | cons op rest ih =>
    intro s s1 hinv h
    simp only [poolRun] at h
    rcases hs : poolStep s op with _ | s2
    · simp [hs] at h
    · rw [hs] at h
      exact ih s2 s1 (poolStep_inv size s s2 op hinv hs) h

theorem clientRefs_nodup (size : Nat) : ((List.range size).map ClientRef.mk).Nodup :=
  (List.nodup_range size).map (fun a b h => by injection h)

/-- C6. A pool made by `NewPool N` holds exactly `N` clients, all different. After any
sequence of receives from `Acquire()` and of `Release` calls that release only clients
held at that time, the clients waiting in the pool together with the clients held are
exactly those `N` clients: none made, lost or doubled. Hence at most `N` clients are
held, no client is held twice, and a held client can be released without waiting: it
is put back itself, at the end of the channel. -/
theorem C6_pool_keeps_its_clients (N : Nat) (ops : List PoolOp) (s : PoolSys)
    (h : poolRun { pool := NewPool N, held := [] } ops = some s) :
    (NewPool N).nextClient.buf.length = N
      ∧ (NewPool N).nextClient.buf.Nodup
      ∧ List.Perm (s.pool.nextClient.buf ++ s.held) (NewPool N).nextClient.buf
      ∧ s.held.length ≤ N
      ∧ s.held.Nodup
      ∧ ∀ client ∈ s.held,
          s.pool.Release client
            = some { nextClient := { s.pool.nextClient with
                                      buf := s.pool.nextClient.buf ++ [client] } } := by
  have h0 : PoolInv N { pool := NewPool N, held := [] } := by
    constructor
    · simp [NewPool_nextClient]
    · simp [NewPool_nextClient]
  obtain ⟨hcap, hperm⟩ := poolRun_inv N ops _ s h0 h
  have hnd := clientRefs_nodup N
  have hlen : s.pool.nextClient.buf.length + s.held.length = N := by
    have := hperm.length_eq
    simpa using this
  have hnd2 : (s.pool.nextClient.buf ++ s.held).Nodup := hperm.nodup_iff.mpr hnd
  rw [NewPool_nextClient]
  refine ⟨by simp, hnd, hperm, by omega, (List.nodup_append.mp hnd2).2.1, ?_⟩
  intro client hmem
  have hpos : 0 < s.held.length := List.length_pos_of_mem hmem
  have hroom : s.pool.nextClient.buf.length < s.pool.nextClient.cap := by omega
  simp [Pool.Release, Chan.send, hroom]

theorem C6_pool_keeps_its_clients_witness :
    poolRun { pool := NewPool 2, held := [] }
        [PoolOp.acquire, PoolOp.acquire, PoolOp.release { addr := 0 }, PoolOp.acquire,
          PoolOp.release { addr := 1 }]
        = some { pool := { nextClient := { buf := [{ addr := 1 }], cap := 2 } },
                 held := [{ addr := 0 }] }
    ∧ ((NewPool 2).nextClient.buf.length = 2
      ∧ (NewPool 2).nextClient.buf.Nodup
      ∧ List.Perm ([({ addr := 1 } : ClientRef)] ++ [{ addr := 0 }]) (NewPool 2).nextClient.buf
      ∧ [({ addr := 0 } : ClientRef)].length ≤ 2
      ∧ [({ addr := 0 } : ClientRef)].Nodup
      ∧ ∀ client ∈ [({ addr := 0 } : ClientRef)],
          Pool.Release { nextClient := { buf := [{ addr := 1 }], cap := 2 } } client
            = some { nextClient := { buf := [{ addr := 1 }] ++ [client], cap := 2 } }) :=
  ⟨by decide,
    C6_pool_keeps_its_clients 2
      [PoolOp.acquire, PoolOp.acquire, PoolOp.release { addr := 0 }, PoolOp.acquire,
        PoolOp.release { addr := 1 }]
      { pool := { nextClient := { buf := [{ addr := 1 }], cap := 2 } },
        held := [{ addr := 0 }] }
      (by decide)⟩

/-! ## Addresses without a script -/

/-- An attempt on addresses of which one has no script fails, with the connect error
when the client had to connect and could not, else with the script error. The client
goes through `connectIfNeeded` and `Disconnect` only: no listing is asked of it. -/
theorem tryExecuteAsync_script_error {π σ α : Type} (ops : TaskOps π σ) (env : Env α)
    (t : scanTask π σ) (e : GoError) (hsc : getOutputScripts env t.addresses = .error e) :
    tryExecuteAsync ops env t
      = (some (Sent.err ((connectIfNeeded ops t).1.getD e)),
          { servers := (connectIfNeeded ops t).2.servers,
            client := ops.Disconnect (connectIfNeeded ops t).2.client,
            addresses := t.addresses }) := by
  have ha := connectIfNeeded_addresses ops t
  unfold tryExecuteAsync tryExecute
  rcases hc : connectIfNeeded ops t with ⟨e1, t1⟩
  rw [hc] at ha
  simp only at ha
  cases e1 with
  | some e1 => simp only [Option.getD_some, ha]
  | none => simp only [ha, hsc, Option.getD_none]

theorem failedAttempts_script_error {π σ α : Type} (ops : TaskOps π σ) (env : Env α)
    (e : GoError) (k : Nat) :
    ∀ (t : scanTask π σ), getOutputScripts env t.addresses = .error e →
      ∃ es tk, failedAttempts ops env k t = some (es, tk) := by
  induction k with
  | zero => intro t _; exact ⟨[], t, rfl⟩
  | succ k ih =>
    intro t hsc
    have hrun := tryExecuteAsync_script_error ops env t e hsc
    obtain ⟨es, tk, hk⟩ := ih
      { servers := (connectIfNeeded ops t).2.servers,
        client := ops.Disconnect (connectIfNeeded ops t).2.client,
        addresses := t.addresses } hsc
    exact ⟨(connectIfNeeded ops t).1.getD e :: es, tk, by
      simp only [failedAttempts, hrun, hk]⟩

/-- C7, as the code has it. When an address of the task has no script
(`getOutputScripts` fails with `e`), every attempt fails: with the connect error when
the client had to connect and could not, else with `e`; it asks no listing of the
client, which only goes through the connection step and `Disconnect`, and a client that
is already connected makes no call at all. `Execute` takes this failure as any other:
after any number `k` of attempts all have failed and `Execute` has not returned; it
returns when the exit signal comes (empty list, nil error) or when the deadline comes,
then with the time-out error made of the last attempt error. -/
theorem C7_script_error_is_retried_until_deadline {π σ α : Type} (ops : TaskOps π σ)
    (env : Env α) (t : scanTask π σ) (e : GoError)
    (hsc : getOutputScripts env t.addresses = .error e) :
    tryExecuteAsync ops env t
        = (some (Sent.err ((connectIfNeeded ops t).1.getD e)),
            { servers := (connectIfNeeded ops t).2.servers,
              client := ops.Disconnect (connectIfNeeded ops t).2.client,
              addresses := t.addresses })
      ∧ (ops.IsConnected t.client = true →
          tryExecuteAsync ops env t
            = (some (Sent.err e), { t with client := ops.Disconnect t.client }))
      ∧ ∀ k, ∃ es tk, failedAttempts ops env k t = some (es, tk)
          ∧ Execute ops env t (List.replicate k Event.attempt) = none
          ∧ (∀ rest, Execute ops env t (List.replicate k Event.attempt ++ Event.exit :: rest)
              = some (Verdict.returned (some []) none, tk))
          ∧ (∀ rest, Execute ops env t (List.replicate k Event.attempt ++ Event.timeout :: rest)
              = some (Verdict.returned none
                  (some (Errorf "Task timed out. Last error: " (lastErrorAfter none es))), tk)) := by
  have hrun := tryExecuteAsync_script_error ops env t e hsc
  refine ⟨hrun, ?_, ?_⟩
  · intro hcon
    rw [hrun, connectIfNeeded_connected ops t hcon]
    rfl
  · intro k
    obtain ⟨es, tk, hk⟩ := failedAttempts_script_error ops env e k t hsc
    refine ⟨es, tk, hk, ?_, ?_, ?_⟩
    · have := executeLoop_failedAttempts ops env k t tk es none [] hk
      rw [List.append_nil] at this
      unfold Execute
      rw [this, executeLoop_nil]
    · intro rest
      unfold Execute
      rw [executeLoop_failedAttempts ops env k t tk es none _ hk]
      simp [executeLoop]
    · intro rest
      unfold Execute
      rw [executeLoop_failedAttempts ops env k t tk es none _ hk]
      simp [executeLoop]

theorem C7_script_error_is_retried_until_deadline_witness :
    getOutputScripts simEnv (simTask ["a", "bad"]).addresses = .error simScriptError
    ∧ (tryExecuteAsync (acceptingOps true) simEnv (simTask ["a", "bad"])
          = (some (Sent.err ((connectIfNeeded (acceptingOps true)
                (simTask ["a", "bad"])).1.getD simScriptError)),
              { servers := (connectIfNeeded (acceptingOps true) (simTask ["a", "bad"])).2.servers,
                client := (acceptingOps true).Disconnect
                  (connectIfNeeded (acceptingOps true) (simTask ["a", "bad"])).2.client,
                addresses := (simTask ["a", "bad"]).addresses })
      ∧ ((acceptingOps true).IsConnected (simTask ["a", "bad"]).client = true →
          tryExecuteAsync (acceptingOps true) simEnv (simTask ["a", "bad"])
            = (some (Sent.err simScriptError),
                { servers := (simTask ["a", "bad"]).servers,
                  client := (acceptingOps true).Disconnect (simTask ["a", "bad"]).client,
                  addresses := (simTask ["a", "bad"]).addresses }))
      ∧ ∀ k, ∃ es tk,
          failedAttempts (acceptingOps true) simEnv k (simTask ["a", "bad"]) = some (es, tk)
          ∧ Execute (acceptingOps true) simEnv (simTask ["a", "bad"])
              (List.replicate k Event.attempt) = none
          ∧ (∀ rest, Execute (acceptingOps true) simEnv (simTask ["a", "bad"])
                (List.replicate k Event.attempt ++ Event.exit :: rest)
              = some (Verdict.returned (some []) none, tk))
          ∧ (∀ rest, Execute (acceptingOps true) simEnv (simTask ["a", "bad"])
                (List.replicate k Event.attempt ++ Event.timeout :: rest)
              = some (Verdict.returned none
                  (some (Errorf "Task timed out. Last error: " (lastErrorAfter none es))),
                  tk))) :=
  ⟨rfl,
    C7_script_error_is_retried_until_deadline (acceptingOps true) simEnv
      (simTask ["a", "bad"]) simScriptError rfl⟩

/-- C7, as the claim states it, fails on the addresses `a` and `bad`: the first attempt
connects to a server before it meets the address without a script, and `Execute` does
not return the script error when that attempt has failed: it retries, on the next
server, and gives the error only inside the time-out error once the deadline has come. -/
theorem C7_script_error_not_returned_at_once :
    getOutputScripts simEnv (simTask ["a", "bad"]).addresses = .error simScriptError
      ∧ (tryExecute (acceptingOps true) simEnv (simTask ["a", "bad"])).1
          = Outcome.error simScriptError
      ∧ (tryExecute (acceptingOps true) simEnv (simTask ["a", "bad"])).2.client.calls
          = ["Connect s0"]
      ∧ Execute (acceptingOps true) simEnv (simTask ["a", "bad"]) [Event.attempt] = none
      ∧ Execute (acceptingOps true) simEnv (simTask ["a", "bad"])
          [Event.attempt, Event.attempt, Event.timeout]
        = some (Verdict.returned none
            (some (GoError.wrap
              "Task timed out. Last error: Failed to decode address bad: decoded address is of unknown format"
              simScriptError)),
            { servers := { servers := ["s0", "s1", "s2"], nextIndex := 2 },
              client := { connected := false, calls := ["Connect s0", "Connect s1"] },
              addresses := [simAddress "a", simAddress "bad"] }) := by
  refine ⟨rfl, by decide, by decide, by decide, by decide⟩

/-! ## A batch with the wrong number of groups -/

theorem listUnspentLoop_length {π σ : Type} (ops : TaskOps π σ) :
    ∀ (indexHashes : List String) (client client1 : σ) (acc groups : List (List UnspentRef)),
      listUnspentLoop ops client indexHashes acc = (.ok groups, client1) →
      groups.length = acc.length + indexHashes.length := by
  intro indexHashes
  induction indexHashes with
  | nil =>
    intro client client1 acc groups h
    simp only [listUnspentLoop, Prod.mk.injEq, Except.ok.injEq] at h
    simp [← h.1]
  | cons indexHash rest ih =>
    intro client client1 acc groups h
    simp only [listUnspentLoop] at h
    rcases hx : ops.ListUnspent client indexHash with ⟨r, c1⟩
    rw [hx] at h
    cases r with
    | error e => simp at h
    | ok newGroup =>
      simp only at h
      have := ih c1 client1 (acc ++ [newGroup]) groups h
      simp only [List.length_append, List.length_cons, List.length_nil] at this ⊢
      omega

/-- The listing without batching, when it succeeds, gives one group per index hash: on
this path the loops of `tryExecute` never meet a wrong number of groups. -/
theorem listUnspentWithoutBatching_length {π σ : Type} (ops : TaskOps π σ)
    (client client1 : σ) (indexHashes : List String) (groups : List (List UnspentRef))
    (h : listUnspentWithoutBatching ops client indexHashes = (.ok groups, client1)) :
    groups.length = indexHashes.length := by
  have := listUnspentLoop_length ops indexHashes client client1 [] groups h
  simpa using this

/-- C8 fails on the code: nothing compares the number of groups of a batch with the
number of addresses. On the addresses `a` and `bb`, through a client that supports
batching, a batch that succeeds with one group for the two index hashes is no error of
the attempt, which returns the UTXO of that group alone with a nil error; and a batch
that succeeds with three groups, the third not empty, ends the attempt with no error
either, but with a read outside the script list that stops the program. -/
theorem C8_mismatched_batch_is_no_error :
    shortBatchOps.SupportsBatching (simTaskConnected ["a", "bb"]).client = true
      ∧ shortBatchOps.ListUnspentBatch (simTaskConnected ["a", "bb"]).client ["i", "ii"]
          = (.ok [simResp "i"], simClientBatched)
      ∧ [simResp "i"].length ≠ (simTask ["a", "bb"]).addresses.length
      ∧ (tryExecute shortBatchOps simEnv (simTask ["a", "bb"])).1
          = Outcome.ok (some [utxoOf [97] (simAddress "a")
              { TxHash := "aa", TxPos := 0, Value := 1000 }])
      ∧ (¬ ∃ e, (tryExecute shortBatchOps simEnv (simTask ["a", "bb"])).1 = Outcome.error e)
      ∧ longBatchOps.SupportsBatching (simTaskConnected ["a", "bb"]).client = true
      ∧ longBatchOps.ListUnspentBatch (simTaskConnected ["a", "bb"]).client ["i", "ii"]
          = (.ok [simResp "i", simResp "ii", [{ TxHash := "dd", TxPos := 0, Value := 1 }]],
              simClientBatched)
      ∧ [simResp "i", simResp "ii", [({ TxHash := "dd", TxPos := 0, Value := 1 } : UnspentRef)]].length
          ≠ (simTask ["a", "bb"]).addresses.length
      ∧ (tryExecute longBatchOps simEnv (simTask ["a", "bb"])).1 = Outcome.outOfRange
      ∧ (¬ ∃ e, (tryExecute longBatchOps simEnv (simTask ["a", "bb"])).1 = Outcome.error e) := by
  have hok : (tryExecute shortBatchOps simEnv (simTask ["a", "bb"])).1
      = Outcome.ok (some [utxoOf [97] (simAddress "a")
          { TxHash := "aa", TxPos := 0, Value := 1000 }]) := by decide
  have hout : (tryExecute longBatchOps simEnv (simTask ["a", "bb"])).1 = Outcome.outOfRange := by
    decide
  refine ⟨rfl, rfl, by decide, hok, ?_, rfl, rfl, by decide, hout, ?_⟩
  · rintro ⟨e, he⟩
    rw [hok] at he
    exact Outcome.noConfusion he
  · rintro ⟨e, he⟩
    rw [hout] at he
    exact Outcome.noConfusion he

/-! ## The fee prompt -/

theorem wrap64_of_fits (x : Int) (h1 : -2 ^ 63 ≤ x) (h2 : x < 2 ^ 63) : wrap64 x = x := by
  unfold wrap64
  rw [Int.emod_eq_of_lt (by omega) (by omega)]
  omega

/-- Where the fee prompt is sound: for a weight and a balance that are not negative, the
fee returned comes from a word the user entered that parses to a rate `r > 0`, and when
the product `r * weight` fits 64 bits the fee is that product and leaves at least 546. -/
theorem readFee_exact_when_product_fits (totalBalance weight : Int)
    (hw : 0 ≤ weight) (hb0 : 0 ≤ totalBalance) (hb1 : totalBalance < 2 ^ 63) :
    ∀ (inputs : List String) (fee : Int), readFee totalBalance weight inputs = some fee →
      ∃ userInput ∈ inputs, ∃ r, ParseInt userInput = .ok r ∧ 0 < r
        ∧ fee = wrap64 (r * weight)
        ∧ (r * weight < 2 ^ 63 → fee = r * weight ∧ 0 ≤ fee ∧ fee ≤ totalBalance - 546) := by
  intro inputs
  induction inputs with
  | nil => intro fee h; simp [readFee] at h
  | cons userInput rest ih =>
    intro fee h
    have later : readFee totalBalance weight rest = some fee →
        ∃ userInput1 ∈ userInput :: rest, ∃ r, ParseInt userInput1 = .ok r ∧ 0 < r
          ∧ fee = wrap64 (r * weight)
          ∧ (r * weight < 2 ^ 63 → fee = r * weight ∧ 0 ≤ fee ∧ fee ≤ totalBalance - 546) := by
      intro h1
      obtain ⟨u, hu, r, hr⟩ := ih fee h1
      exact ⟨u, List.mem_cons_of_mem _ hu, r, hr⟩
    simp only [readFee] at h
    rcases hp : ParseInt userInput with e | r
    · rw [hp] at h
      exact later h
    · rw [hp] at h
      simp only at h
      by_cases hr : r ≤ 0
      · rw [if_pos hr] at h
        exact later h
      · rw [if_neg hr] at h
        by_cases hd : wrap64 (totalBalance - wrap64 (r * weight)) < 546
        · rw [if_pos hd] at h
          exact later h
        · rw [if_neg hd] at h
          simp only [Option.some.injEq] at h
          refine ⟨userInput, List.mem_cons_self _ _, r, hp, by omega, h.symm, ?_⟩
          intro hfit
          have hnn : 0 ≤ r * weight := Int.mul_nonneg (by omega) hw
          have hfee : wrap64 (r * weight) = r * weight :=
            wrap64_of_fits _ (by omega) hfit
          rw [hfee] at hd h
          have hleft : wrap64 (totalBalance - r * weight) = totalBalance - r * weight :=
            wrap64_of_fits _ (by omega) (by omega)
          rw [hleft] at hd
          subst h
          exact ⟨rfl, hnn, by omega⟩

/-- C10 fails on the code. With a balance of 100000 and a weight of 400, the rate
34587645138205409 is accepted and the fee returned is negative: the product of the rate
and the weight does not fit 64 bits and wraps. With the rate 46116860184273880 the
fee returned is 384, which is not the product either. -/
theorem C10_readFee_product_wraps :
    ParseInt "34587645138205409" = .ok 34587645138205409
      ∧ readFee 100000 400 ["34587645138205409"] = some (-4611686018427388016)
      ∧ (34587645138205409 : Int) * 400 ≠ -4611686018427388016
      ∧ ¬ (0 : Int) ≤ -4611686018427388016
      ∧ ParseInt "46116860184273880" = .ok 46116860184273880
      ∧ readFee 100000 400 ["46116860184273880"] = some 384
      ∧ (46116860184273880 : Int) * 400 ≠ 384 := by
  refine ⟨rfl, by decide, by decide, by decide, rfl, by decide, by decide⟩

end Recovery
